import Mathlib

/-!
Verification of the semantic-search pipeline of student-knowledge-pro.

The repository snapshot contains the Next.js frontend (dataset, embedding and
search pages plus the API helper module).  The FastAPI backend that implements
the chunker, the embedding provider, the vector indices, the index registry and
the query engine is exercised through `http://localhost:8000/api/...` calls but
its code is not part of the snapshot, so those components are modelled from the
specification; every such definition is marked `Modelled from the spec:`.
Definitions taken from the frontend source (search history handling, result row
shapes, model metadata) cite their file.

Vectors are modelled as lists of rationals; similarity scores are exact
rational dot products.
-/

namespace SKP

/-- Error taxonomy of the pipeline, one constructor per typed failure named in
spec section 7. -/
inductive PipelineError where
  | InvalidConfiguration
  | ModelUnavailable
  | EmptyInput
  | EmptyQuery
  | DimensionMismatch
  | IndexNotFound
  | InvalidTopK
  | BackendIOError
  deriving DecidableEq, Repr

/-- A chunk of a source document (spec section 3): sequence index, text span,
and identifier of the source document. -/
structure Chunk where
  seqIndex : Nat
  text : String
  sourceDoc : String
  deriving DecidableEq, Repr

/-- An embedding vector: an ordered sequence of numbers (spec section 3). -/
abbrev Vec := List ℚ

/-- Dot product of two vectors, the runtime similarity comparison of the index
(spec section 4.3: comparisons are plain dot products). -/
def dot (v w : Vec) : ℚ := (List.zipWith (· * ·) v w).sum

/-- Modelled from the spec: recursion core of the Chunker (spec section 4.1;
the chunker lives in the backend, absent from the snapshot).  A sliding window
emits up to `chunkSize` characters per chunk and advances by `step` characters,
so consecutive chunks share `chunkSize - step` characters.  `fuel` bounds the
recursion; `text.length` is always enough fuel once `1 ≤ step`. -/
def chunkSpansAux (chunkSize step : Nat) : Nat → List Char → List (List Char)
  | _, [] => []
  | 0, _ :: _ => []
  | fuel + 1, c :: cs =>
    (c :: cs).take chunkSize :: chunkSpansAux chunkSize step fuel ((c :: cs).drop step)

/-- Modelled from the spec: the chunk spans produced for a document text by the
sliding window with the given chunk size and advance step. -/
def chunkSpans (chunkSize step : Nat) (text : List Char) : List (List Char) :=
  chunkSpansAux chunkSize step text.length text

/-- Modelled from the spec: the Chunker contract (spec section 4.1).  Overlap
must be strictly smaller than the chunk size, otherwise the chunker fails with
`InvalidConfiguration`; an empty document yields zero chunks. -/
def chunkDocument (chunkSize overlap : Nat) (text : List Char) :
    Except PipelineError (List (List Char)) :=
  if overlap < chunkSize then
    .ok (chunkSpans chunkSize (chunkSize - overlap) text)
  else
    .error .InvalidConfiguration

/-- Concatenation of chunk spans ignoring the overlapped regions: the first
chunk is kept whole and every later chunk drops its leading `overlap`
characters (spec section 8, reconstruction property). -/
def reassemble (overlap : Nat) : List (List Char) → List Char
  | [] => []
  | c :: cs => c ++ (cs.map (List.drop overlap)).flatten

/-- One scored entry during a search: the insertion position of the chunk, the
chunk itself, and its similarity score against the query. -/
structure Scored where
  pos : Nat
  chunk : Chunk
  score : ℚ
  deriving DecidableEq, Repr

/-- Ranking order used by search: higher score first; among equal scores the
earlier insertion position first (spec section 4.3: ties broken by original
insertion order). -/
def rankBefore (a b : Scored) : Prop :=
  b.score < a.score ∨ (a.score = b.score ∧ a.pos ≤ b.pos)

instance : DecidableRel rankBefore := fun _ _ =>
  inferInstanceAs (Decidable (_ ∨ _ ∧ _))

instance : IsTotal Scored rankBefore := by
  constructor
  intro a b
  rcases lt_trichotomy a.score b.score with h | h | h
  · exact Or.inr (Or.inl h)
  · rcases Nat.le_total a.pos b.pos with hp | hp
    · exact Or.inl (Or.inr ⟨h, hp⟩)
    · exact Or.inr (Or.inr ⟨h.symm, hp⟩)
  · exact Or.inl (Or.inl h)

instance : IsTrans Scored rankBefore := by
  constructor
  intro a b c hab hbc
  rcases hab with hab | ⟨hab, hab'⟩ <;> rcases hbc with hbc | ⟨hbc, hbc'⟩
  · exact Or.inl (lt_trans hbc hab)
  · exact Or.inl (hbc ▸ hab)
  · exact Or.inl (hab ▸ hbc)
  · exact Or.inr ⟨hab.trans hbc, hab'.trans hbc'⟩

/-- Scored entries of a list of chunks and their stored vectors against a
query vector, positions counting from `i`. -/
def scoredEntriesFrom (q : Vec) : Nat → List Chunk → List Vec → List Scored
  | _, [], _ => []
  | _, _ :: _, [] => []
  | i, c :: cs, v :: vs => ⟨i, c, dot v q⟩ :: scoredEntriesFrom q (i + 1) cs vs

/-- Modelled from the spec: a built vector index (spec sections 3 and 4.3; the
index backends live in the backend, absent from the snapshot).  It records the
stored dimension and the chunks paired positionally with their vectors. -/
structure VectorIndex where
  dim : Nat
  chunks : List Chunk
  vectors : List Vec
  deriving DecidableEq, Repr

/-- All stored entries of an index scored against a query and sorted by
descending score, ties by insertion order. -/
def searchOrdered (idx : VectorIndex) (q : Vec) : List Scored :=
  List.insertionSort rankBefore (scoredEntriesFrom q 0 idx.chunks idx.vectors)

/-- Modelled from the spec: `search(query_vector, k)` (spec section 4.3).
Fails with `DimensionMismatch` when the query length differs from the stored
dimension; otherwise returns up to `k` (chunk, score) pairs ordered by
descending similarity, ties broken by insertion order. -/
def VectorIndex.search (idx : VectorIndex) (q : Vec) (k : Nat) :
    Except PipelineError (List (Chunk × ℚ)) :=
  if q.length = idx.dim then
    .ok (((searchOrdered idx q).take k).map fun s => (s.chunk, s.score))
  else
    .error .DimensionMismatch

/-- Whether all vectors of a list share the length of the first one. -/
def uniformDim : List Vec → Bool
  | [] => true
  | v :: vs => vs.all fun w => w.length = v.length

/-- The dimension of a vector list: the length of its first vector. -/
def dimOf : List Vec → Nat
  | [] => 0
  | v :: _ => v.length

/-- Modelled from the spec: `build(chunks, vectors)` (spec section 4.3).
Fails with `DimensionMismatch` when the vectors are not of uniform length, with
`EmptyInput` when there are no chunks; otherwise bulk-loads everything. -/
def build (chunks : List Chunk) (vectors : List Vec) :
    Except PipelineError VectorIndex :=
  if uniformDim vectors = false then .error .DimensionMismatch
  else if chunks.isEmpty then .error .EmptyInput
  else .ok ⟨dimOf vectors, chunks, vectors⟩

/-- The three sentence-transformer variants offered by the frontend embedding
page (source file of the embedding page, `embeddingModels` list). -/
inductive EmbeddingModel where
  | allMiniLML6v2
  | allMpnetBaseV2
  | paraphraseMiniLML3v2
  deriving DecidableEq, Repr

/-- Output dimension declared per model variant: 384, 768 and 384, as recorded
in the frontend model metadata. -/
def EmbeddingModel.dimension : EmbeddingModel → Nat
  | .allMiniLML6v2 => 384
  | .allMpnetBaseV2 => 768
  | .paraphraseMiniLML3v2 => 384

/-- Deterministic numeric seed of a text, used by the embedding stand-in. -/
def textSeed (t : String) : Nat :=
  t.toList.foldl (fun acc c => acc * 31 + c.toNat) 7

/-- Modelled from the spec: `embed_one(text)` of the Embedding Provider (spec
section 4.2; the provider wraps sentence-transformer models external to the
snapshot).  Stand-in that is deterministic for identical input and produces a
vector of exactly the model's declared dimension. -/
def embed_one (m : EmbeddingModel) (t : String) : Vec :=
  (List.range m.dimension).map fun i => (((textSeed t + i) % 13 : Nat) : ℚ)

/-- Modelled from the spec: `embed_many(texts)` batches the inputs and returns
their vectors in input order (spec section 4.2). -/
def embed_many (m : EmbeddingModel) (ts : List String) : List Vec :=
  ts.map (embed_one m)

/-- Modelled from the spec: the Index Registry state (spec section 4.4), a list
of materialized indices keyed by index identifier, most recent build first. -/
abbrev Registry := List (String × EmbeddingModel × VectorIndex)

/-- Modelled from the spec: `resolve(index_id)` returns the live index for the
identifier and fails with `IndexNotFound` when none has been built. -/
def resolve : Registry → String → Except PipelineError (EmbeddingModel × VectorIndex)
  | [], _ => .error .IndexNotFound
  | (i, m, v) :: rest, id => if i = id then .ok (m, v) else resolve rest id

/-- A build request: the target index identifier, the embedding model, and the
chunks with their vectors produced by the chunking and embedding stages. -/
structure BuildRequest where
  id : String
  model : EmbeddingModel
  chunks : List Chunk
  vectors : List Vec
  deriving DecidableEq, Repr

/-- Modelled from the spec: registry build (spec section 4.4).  On success the
fully built index replaces any prior index of the same identifier atomically;
on failure the registry is returned untouched. -/
def registryBuild (r : Registry) (req : BuildRequest) :
    Registry × Except PipelineError VectorIndex :=
  match build req.chunks req.vectors with
  | .ok idx => ((req.id, req.model, idx) :: r, .ok idx)
  | .error e => (r, .error e)

/-- A sequence of build operations applied to a registry in order. -/
def applyBuilds : Registry → List BuildRequest → Registry
  | r, [] => r
  | r, req :: rest => applyBuilds (registryBuild r req).1 rest

/-- Search result row shape of the frontend (`SearchResult` interface in
src/frontend/src/app/search/page.tsx): 1-based rank, chunk content, source
file, similarity score. -/
structure SearchResult where
  rank : Nat
  content : String
  source_file : String
  similarity_score : ℚ
  deriving DecidableEq, Repr

/-- Maps raw (chunk, score) pairs to ranked search results, ranks counting
from `n`. -/
def rankResults : Nat → List (Chunk × ℚ) → List SearchResult
  | _, [] => []
  | n, (c, s) :: rest => ⟨n, c.text, c.sourceDoc, s⟩ :: rankResults (n + 1) rest

/-- A text is blank when it consists of whitespace only, i.e. trimming leaves
nothing, matching the frontend guard `!query.trim()` in
src/frontend/src/app/search/page.tsx. -/
def isBlank (t : String) : Bool := t.data.all Char.isWhitespace

/-- Modelled from the spec: `query(text, index_id, k)` of the Query Engine
(spec section 4.5), parameterized by the embedding function so that fail-fast
validation (no embedding work on a validation failure) is observable.
Validates the query text and `k`, resolves the index, embeds the text with the
index's own model, searches, and ranks the raw results 1-based. -/
def queryWith (embed : EmbeddingModel → String → Vec) (r : Registry)
    (text : String) (indexId : String) (k : Nat) :
    Except PipelineError (List SearchResult) :=
  if isBlank text then .error .EmptyQuery
  else if k < 1 then .error .InvalidTopK
  else
    match resolve r indexId with
    | .error e => .error e
    | .ok (m, idx) =>
      match idx.search (embed m text) k with
      | .error e => .error e
      | .ok pairs => .ok (rankResults 1 pairs)

/-- Modelled from the spec: the Query Engine's `query` with the concrete
embedding provider. -/
def query : Registry → String → String → Nat → Except PipelineError (List SearchResult) :=
  queryWith embed_one

/-- Modelled from the spec: `batch_query(texts[], index_id, k)` runs each query
independently and returns one result slot per input text in input order (spec
section 4.5). -/
def batch_query (r : Registry) (texts : List String) (indexId : String) (k : Nat) :
    List (Except PipelineError (List SearchResult)) :=
  texts.map fun t => query r t indexId k

/-- The single demo document chunk used by the concrete scenarios, taken from
the scenario of spec section 8. -/
def demoChunk : Chunk :=
  ⟨0, "Cats are mammals. Dogs are mammals too.", "animals.txt"⟩

/-- A demo index over the demo chunk, built with the fast 384-dimensional
model. -/
def demoIndex : VectorIndex :=
  ⟨EmbeddingModel.allMiniLML6v2.dimension, [demoChunk],
    [embed_one .allMiniLML6v2 demoChunk.text]⟩

/-- A demo registry holding the demo index under its store identifier. -/
def demoRegistry : Registry :=
  [("FAISS_all-MiniLM-L6-v2", .allMiniLML6v2, demoIndex)]

/-- A two-dimensional index whose single stored vector is unit-normalized,
used to exhibit score bounds. -/
def unitIdx : VectorIndex := ⟨2, [demoChunk], [[3 / 5, 4 / 5]]⟩

/-- Search history entry kept by the search page (`SearchHistoryItem`
interface in src/frontend/src/app/search/page.tsx); the timestamp is modelled
as a natural number. -/
structure SearchHistoryItem where
  query : String
  timestamp : Nat
  resultCount : Nat
  deriving DecidableEq, Repr

/-- Frontend search response shape (`SearchResponse` interface in
src/frontend/src/app/search/page.tsx); the floating-point time field is not
modelled. -/
structure SearchResponse where
  query : String
  total_results : Nat
  results : List SearchResult
  deriving DecidableEq, Repr

/-- History update performed by `handleSearch` in
src/frontend/src/app/search/page.tsx: on a successful response the new entry
(trimmed query, timestamp, total result count) is prepended onto the first
nine previous entries (`prev.slice(0, 9)`); on a failed search the history is
left unchanged. -/
def handleSearchHistory (prev : List SearchHistoryItem) (qtext : String) (now : Nat) :
    Except String SearchResponse → List SearchHistoryItem
  | .ok data => ⟨qtext.trim, now, data.total_results⟩ :: prev.take 9
  | .error _ => prev

/-! Chunker lemmas and claims C4, C8. -/

/-- Dropping the overlapped prefix of every chunk and concatenating yields the
document text with its first `overlap` characters removed. -/
theorem flatten_drop_chunkSpansAux (chunkSize overlap : Nat) (hov : overlap < chunkSize) :
    ∀ (fuel : Nat) (text : List Char), text.length ≤ fuel →
      ((chunkSpansAux chunkSize (chunkSize - overlap) fuel text).map
          (List.drop overlap)).flatten = text.drop overlap := by
  intro fuel
  induction fuel with
  | zero =>
    intro text hlen
    have htext : text = [] := List.length_eq_zero.mp (Nat.le_zero.mp hlen)
    subst htext
    simp [chunkSpansAux]
  | succ fuel ih =>
    intro text hlen
    cases text with
    | nil => simp [chunkSpansAux]
    | cons c cs =>
      have hlen' : ((c :: cs).drop (chunkSize - overlap)).length ≤ fuel := by
        simp only [List.length_drop, List.length_cons]
        simp only [List.length_cons] at hlen
        omega
      have htk : chunkSize - overlap + overlap = chunkSize := by omega
      rw [chunkSpansAux, List.map_cons, List.flatten_cons, ih _ hlen',
        List.drop_drop, List.drop_take, htk]
      have hcs : overlap + (chunkSize - overlap) = chunkSize := by omega
      calc ((c :: cs).drop overlap).take (chunkSize - overlap) ++ (c :: cs).drop chunkSize
          = ((c :: cs).drop overlap).take (chunkSize - overlap)
              ++ ((c :: cs).drop overlap).drop (chunkSize - overlap) := by
            rw [List.drop_drop, hcs]
        _ = (c :: cs).drop overlap := List.take_append_drop _ _

/-- Claim C4: for every non-empty document text and every configuration with
overlap strictly below chunk_size, the chunker returns a non-empty ordered
sequence of chunks, and concatenating the chunk spans while dropping each
later chunk's overlapped prefix reconstructs the original text exactly. -/
theorem chunker_covers_document (chunkSize overlap : Nat) (text : List Char)
    (hov : overlap < chunkSize) (hne : text ≠ []) :
    ∃ chunks, chunkDocument chunkSize overlap text = .ok chunks
      ∧ chunks ≠ [] ∧ reassemble overlap chunks = text := by
  refine ⟨chunkSpans chunkSize (chunkSize - overlap) text, ?_, ?_, ?_⟩
  · simp [chunkDocument, hov]
  · cases text with
    | nil => exact absurd rfl hne
    | cons c cs =>
      simp [chunkSpans, List.length_cons, chunkSpansAux]
  · cases text with
    | nil => exact absurd rfl hne
    | cons c cs =>
      have hlen' : ((c :: cs).drop (chunkSize - overlap)).length ≤ cs.length := by
        simp only [List.length_drop, List.length_cons]
        omega
      simp only [chunkSpans, List.length_cons]
      have htk : chunkSize - overlap + overlap = chunkSize := by omega
      rw [chunkSpansAux, reassemble,
        flatten_drop_chunkSpansAux chunkSize overlap hov _ _ hlen', List.drop_drop,
        htk, List.take_append_drop]

/-- Claim C8: the chunker fails with `InvalidConfiguration` exactly when the
overlap is not strictly smaller than the chunk size, and for every valid
configuration the empty document produces zero chunks. -/
theorem chunker_config_and_empty (chunkSize overlap : Nat) (text : List Char) :
    (chunkDocument chunkSize overlap text = .error .InvalidConfiguration ↔
      chunkSize ≤ overlap)
  ∧ (overlap < chunkSize → chunkDocument chunkSize overlap [] = .ok []) := by
  constructor
  · constructor
    · intro h
      by_contra hgt
      push_neg at hgt
      simp [chunkDocument, hgt] at h
    · intro h
      have hnlt : ¬ overlap < chunkSize := by omega
      simp [chunkDocument, hnlt]
  · intro h
    simp [chunkDocument, h, chunkSpans, chunkSpansAux]

/-- Witness for C4 at chunk_size 3, overlap 1 and the five-character document
"abcde". -/
theorem chunker_covers_document_witness :
    (1 < 3 ∧ (['a', 'b', 'c', 'd', 'e'] : List Char) ≠ []) ∧
    ∃ chunks, chunkDocument 3 1 ['a', 'b', 'c', 'd', 'e'] = .ok chunks
      ∧ chunks ≠ [] ∧ reassemble 1 chunks = ['a', 'b', 'c', 'd', 'e'] :=
  ⟨⟨by decide, by decide⟩,
    chunker_covers_document 3 1 ['a', 'b', 'c', 'd', 'e'] (by decide) (by decide)⟩

/-- Witness for C8 at chunk_size 4, overlap 1 and the empty document. -/
theorem chunker_config_and_empty_witness :
    1 < 4 ∧ chunkDocument 4 1 [] = .ok [] :=
  ⟨by decide, (chunker_config_and_empty 4 1 []).2 (by decide)⟩

/-! Search ordering lemmas and claims C1, C2. -/

/-- Every scored entry carries a position at least the starting position. -/
theorem scoredEntriesFrom_le_pos (q : Vec) :
    ∀ (i : Nat) (cs : List Chunk) (vs : List Vec) (s : Scored),
      s ∈ scoredEntriesFrom q i cs vs → i ≤ s.pos := by
  intro i cs
  induction cs generalizing i with
  | nil => intro vs s hs; simp [scoredEntriesFrom] at hs
  | cons c cs ih =>
    intro vs s hs
    cases vs with
    | nil => simp [scoredEntriesFrom] at hs
    | cons v vs =>
      rcases List.mem_cons.mp hs with h | h
      · subst h; exact Nat.le_refl _
      · exact Nat.le_of_succ_le (ih (i + 1) vs s h)

/-- Scored entries are produced in strictly increasing position order. -/
theorem scoredEntriesFrom_pos_pairwise (q : Vec) :
    ∀ (i : Nat) (cs : List Chunk) (vs : List Vec),
      (scoredEntriesFrom q i cs vs).Pairwise fun a b => a.pos < b.pos := by
  intro i cs
  induction cs generalizing i with
  | nil => intro vs; simp [scoredEntriesFrom]
  | cons c cs ih =>
    intro vs
    cases vs with
    | nil => simp [scoredEntriesFrom]
    | cons v vs =>
      refine List.Pairwise.cons ?_ (ih (i + 1) vs)
      intro s hs
      exact Nat.lt_of_lt_of_le (Nat.lt_succ_self i) (scoredEntriesFrom_le_pos q (i + 1) cs vs s hs)

/-- Every scored entry's score is the dot product of one of the stored vectors
with the query. -/
theorem scoredEntriesFrom_score (q : Vec) :
    ∀ (i : Nat) (cs : List Chunk) (vs : List Vec) (s : Scored),
      s ∈ scoredEntriesFrom q i cs vs → ∃ v ∈ vs, s.score = dot v q := by
  intro i cs
  induction cs generalizing i with
  | nil => intro vs s hs; simp [scoredEntriesFrom] at hs
  | cons c cs ih =>
    intro vs s hs
    cases vs with
    | nil => simp [scoredEntriesFrom] at hs
    | cons v vs =>
      rcases List.mem_cons.mp hs with h | h
      · subst h; exact ⟨v, List.mem_cons_self v vs, rfl⟩
      · obtain ⟨w, hw, hsc⟩ := ih (i + 1) vs s h
        exact ⟨w, List.mem_cons_of_mem v hw, hsc⟩

/-- The fully sorted search order is non-increasing in score, and among equal
scores strictly increasing in insertion position. -/
theorem searchOrdered_pairwise (idx : VectorIndex) (q : Vec) :
    (searchOrdered idx q).Pairwise
      fun a b => b.score ≤ a.score ∧ (b.score = a.score → a.pos < b.pos) := by
  have hsorted : (searchOrdered idx q).Pairwise rankBefore :=
    List.sorted_insertionSort rankBefore _
  have hperm : (searchOrdered idx q).Perm (scoredEntriesFrom q 0 idx.chunks idx.vectors) :=
    List.perm_insertionSort rankBefore _
  have hne : (searchOrdered idx q).Pairwise fun a b : Scored => a.pos ≠ b.pos := by
    have h1 : (scoredEntriesFrom q 0 idx.chunks idx.vectors).Pairwise
        fun a b : Scored => a.pos ≠ b.pos :=
      (scoredEntriesFrom_pos_pairwise q 0 idx.chunks idx.vectors).imp
        fun h => Nat.ne_of_lt h
    exact (hperm.pairwise_iff fun {_ _} h => Ne.symm h).mpr h1
  refine (hsorted.and hne).imp ?_
  rintro a b ⟨hr, hp⟩
  rcases hr with hr | ⟨hr, hr'⟩
  · exact ⟨le_of_lt hr, fun heq => absurd heq (ne_of_lt hr)⟩
  · exact ⟨le_of_eq hr.symm, fun _ => lt_of_le_of_ne hr' hp⟩

/-- Claim C1: for a query of matching dimension, search returns at most k
(chunk, score) pairs: exactly the first k entries of the sorted order, whose
scores are non-increasing with ties in insertion order, and repeated identical
calls return the identical sequence. -/
theorem search_topk_sorted (idx : VectorIndex) (q : Vec) (k : Nat)
    (hdim : q.length = idx.dim) :
    ∃ res, idx.search q k = .ok res
      ∧ res.length ≤ k
      ∧ res = ((searchOrdered idx q).take k).map (fun s => (s.chunk, s.score))
      ∧ ((searchOrdered idx q).take k).Pairwise
          (fun a b => b.score ≤ a.score ∧ (b.score = a.score → a.pos < b.pos))
      ∧ idx.search q k = idx.search q k := by
  refine ⟨_, ?_, ?_, rfl, ?_, rfl⟩
  · simp [VectorIndex.search, hdim]
  · rw [List.length_map, List.length_take]
    exact Nat.min_le_left _ _
  · exact List.Pairwise.sublist (List.take_sublist _ _) (searchOrdered_pairwise idx q)

/-- Witness for C1 on a one-dimensional index holding two chunks with tied
scores, queried with k = 2. -/
theorem search_topk_sorted_witness :
    ([(1 : ℚ)] : Vec).length = (⟨1, [demoChunk, demoChunk], [[2], [2]]⟩ : VectorIndex).dim ∧
    ∃ res, (⟨1, [demoChunk, demoChunk], [[2], [2]]⟩ : VectorIndex).search [(1 : ℚ)] 2 = .ok res
      ∧ res.length ≤ 2
      ∧ res = ((searchOrdered ⟨1, [demoChunk, demoChunk], [[2], [2]]⟩ [(1 : ℚ)]).take 2).map
          (fun s => (s.chunk, s.score))
      ∧ ((searchOrdered ⟨1, [demoChunk, demoChunk], [[2], [2]]⟩ [(1 : ℚ)]).take 2).Pairwise
          (fun a b => b.score ≤ a.score ∧ (b.score = a.score → a.pos < b.pos))
      ∧ (⟨1, [demoChunk, demoChunk], [[2], [2]]⟩ : VectorIndex).search [(1 : ℚ)] 2 =
          (⟨1, [demoChunk, demoChunk], [[2], [2]]⟩ : VectorIndex).search [(1 : ℚ)] 2 :=
  ⟨rfl, search_topk_sorted ⟨1, [demoChunk, demoChunk], [[2], [2]]⟩ [(1 : ℚ)] 2 rfl⟩

/-- Claim C2: build fails with DimensionMismatch when the vectors are not of
uniform length and with EmptyInput when the chunk list is empty; after a
successful build whose vectors all have dimension D, a D-length query never
yields DimensionMismatch and any other length always does. -/
theorem build_and_search_dimensions (chunks : List Chunk) (vectors : List Vec) :
    (uniformDim vectors = false → build chunks vectors = .error .DimensionMismatch)
  ∧ (uniformDim vectors = true →
      (build chunks vectors = .error .EmptyInput ↔ chunks = []))
  ∧ (∀ idx, build chunks vectors = .ok idx →
      ∀ D, vectors ≠ [] → (∀ v ∈ vectors, v.length = D) →
        ∀ (q : Vec) (k : Nat),
          (q.length = D → ∃ res, idx.search q k = .ok res)
        ∧ (q.length ≠ D → idx.search q k = .error .DimensionMismatch)) := by
  refine ⟨?_, ?_, ?_⟩
  · intro h
    simp [build, h]
  · intro h
    cases hchunks : chunks.isEmpty with
    | true =>
      simp [build, h, hchunks, List.isEmpty_iff.mp hchunks]
    | false =>
      constructor
      · intro hb
        simp [build, h, hchunks] at hb
      · intro hb
        subst hb
        simp at hchunks
  · intro idx hidx D hne hD q k
    by_cases hu : uniformDim vectors = false
    · simp [build, hu] at hidx
    · by_cases he : chunks.isEmpty
      · simp [build, hu, he] at hidx
      · have hidx' : idx = ⟨dimOf vectors, chunks, vectors⟩ := by
          simp [build, hu, he] at hidx
          exact hidx.symm
        have hdim : idx.dim = D := by
          cases vectors with
          | nil => exact absurd rfl hne
          | cons v vs =>
            rw [hidx']
            exact hD v (List.mem_cons_self v vs)
        constructor
        · intro hq
          refine ⟨((searchOrdered idx q).take k).map (fun s => (s.chunk, s.score)), ?_⟩
          unfold VectorIndex.search
          rw [if_pos (by rw [hdim]; exact hq)]
        · intro hq
          have : ¬ q.length = idx.dim := by rw [hdim]; exact hq
          simp [VectorIndex.search, this]

/-- Witness for C2 on a single-chunk build with one two-dimensional vector,
queried with a matching and a mismatched query length. -/
theorem build_and_search_dimensions_witness :
    build [demoChunk] [[(1 : ℚ), 0]] = .ok ⟨2, [demoChunk], [[(1 : ℚ), 0]]⟩ ∧
    (∃ res, (⟨2, [demoChunk], [[(1 : ℚ), 0]]⟩ : VectorIndex).search [(0 : ℚ), 1] 3 = .ok res) ∧
    (⟨2, [demoChunk], [[(1 : ℚ), 0]]⟩ : VectorIndex).search [(1 : ℚ)] 3 =
      .error .DimensionMismatch :=
  ⟨by rfl,
    ((build_and_search_dimensions [demoChunk] [[(1 : ℚ), 0]]).2.2 _ (by rfl) 2
      (by simp) (by decide) [(0 : ℚ), 1] 3).1 rfl,
    ((build_and_search_dimensions [demoChunk] [[(1 : ℚ), 0]]).2.2 _ (by rfl) 2
      (by simp) (by decide) [(1 : ℚ)] 3).2 (by decide)⟩

/-! Registry lemmas and claim C3. -/

/-- Resolving after a sequence of builds fails with IndexNotFound exactly when
the identifier was unknown before and no build in the sequence succeeded for
it. -/
theorem resolve_applyBuilds (id : String) :
    ∀ (reqs : List BuildRequest) (r : Registry),
      resolve (applyBuilds r reqs) id = .error .IndexNotFound ↔
        (resolve r id = .error .IndexNotFound ∧
          ∀ req ∈ reqs, req.id = id → ∀ idx, build req.chunks req.vectors ≠ .ok idx) := by
  intro reqs
  induction reqs with
  | nil =>
    intro r
    simp [applyBuilds]
  | cons req rest ih =>
    intro r
    rw [applyBuilds, ih]
    cases hb : build req.chunks req.vectors with
    | error e =>
      have hreg : (registryBuild r req).1 = r := by simp [registryBuild, hb]
      rw [hreg]
      constructor
      · rintro ⟨h1, h2⟩
        refine ⟨h1, ?_⟩
        intro rq hrq hid idx
        rcases List.mem_cons.mp hrq with h | h
        · subst h
          rw [hb]
          exact fun hcontra => Except.noConfusion hcontra
        · exact h2 rq h hid idx
      · rintro ⟨h1, h2⟩
        exact ⟨h1, fun rq hrq hid idx => h2 rq (List.mem_cons_of_mem _ hrq) hid idx⟩
    | ok idx0 =>
      have hreg : (registryBuild r req).1 = (req.id, req.model, idx0) :: r := by
        simp [registryBuild, hb]
      rw [hreg]
      by_cases hid : req.id = id
      · constructor
        · rintro ⟨h1, _⟩
          rw [resolve, if_pos hid] at h1
          exact Except.noConfusion h1
        · rintro ⟨_, h2⟩
          exact absurd hb (h2 req (List.mem_cons_self _ _) hid idx0)
      · rw [resolve, if_neg hid]
        constructor
        · rintro ⟨h1, h2⟩
          refine ⟨h1, ?_⟩
          intro rq hrq hid' idx
          rcases List.mem_cons.mp hrq with h | h
          · subst h
            exact absurd hid' hid
          · exact h2 rq h hid' idx
        · rintro ⟨h1, h2⟩
          exact ⟨h1, fun rq hrq hid' idx => h2 rq (List.mem_cons_of_mem _ hrq) hid' idx⟩

/-- Claim C3: resolve fails with IndexNotFound exactly when no build for that
identifier has ever succeeded; a query against such an identifier returns
IndexNotFound and nothing else; a failed build leaves the registry, and hence
any prior index under that identifier, unchanged; a successful build installs
exactly the fully built index. -/
theorem registry_not_found_and_atomic :
    (∀ (reqs : List BuildRequest) (id : String),
      resolve (applyBuilds [] reqs) id = .error .IndexNotFound ↔
        ∀ req ∈ reqs, req.id = id → ∀ idx, build req.chunks req.vectors ≠ .ok idx)
  ∧ (∀ (r : Registry) (req : BuildRequest) (e : PipelineError),
      (registryBuild r req).2 = .error e → (registryBuild r req).1 = r)
  ∧ (∀ (r : Registry) (req : BuildRequest) (idx : VectorIndex),
      (registryBuild r req).2 = .ok idx →
        build req.chunks req.vectors = .ok idx ∧
        resolve (registryBuild r req).1 req.id = .ok (req.model, idx))
  ∧ (∀ (r : Registry) (t id : String) (k : Nat),
      isBlank t = false → 1 ≤ k → resolve r id = .error .IndexNotFound →
        query r t id k = .error .IndexNotFound) := by
  refine ⟨?_, ?_, ?_, ?_⟩
  · intro reqs id
    rw [resolve_applyBuilds id reqs []]
    simp [resolve]
  · intro r req e h
    cases hb : build req.chunks req.vectors with
    | error e' => simp [registryBuild, hb]
    | ok idx => simp [registryBuild, hb] at h
  · intro r req idx h
    cases hb : build req.chunks req.vectors with
    | error e' => simp [registryBuild, hb] at h
    | ok idx0 =>
      simp [registryBuild, hb] at h
      subst h
      exact ⟨rfl, by simp [registryBuild, hb, resolve]⟩
  · intro r t id k hblank hk hres
    have hnk : ¬ k < 1 := by omega
    simp only [query, queryWith, hblank, Bool.false_eq_true, if_false, hnk, hres]

/-- Witness for C3: a build request with no chunks fails with EmptyInput and
leaves the demo registry untouched. -/
theorem registry_not_found_and_atomic_witness :
    (registryBuild demoRegistry ⟨"new", .allMiniLML6v2, [], []⟩).2 = .error .EmptyInput ∧
    (registryBuild demoRegistry ⟨"new", .allMiniLML6v2, [], []⟩).1 = demoRegistry :=
  ⟨by rfl,
    registry_not_found_and_atomic.2.1 demoRegistry ⟨"new", .allMiniLML6v2, [], []⟩
      .EmptyInput (by rfl)⟩

/-! Embedding provider lemmas and claim C5. -/

/-- The i-th batched vector is the single-text embedding of the i-th text. -/
theorem embed_many_getD (m : EmbeddingModel) :
    ∀ (ts : List String) (i : Nat), i < ts.length →
      (embed_many m ts).getD i [] = embed_one m (ts.getD i "") := by
  intro ts
  induction ts with
  | nil =>
    intro i h
    simp at h
  | cons t ts ih =>
    intro i h
    cases i with
    | zero => simp [embed_many]
    | succ i =>
      simp only [embed_many, List.map_cons, List.getD_cons_succ]
      exact ih i (by simpa using h)

/-- Claim C5: embed_many returns exactly one vector per input text, in input
order, and for every index the returned vector equals embed_one of the
corresponding text, for every supported model variant. -/
theorem embed_many_matches_embed_one (m : EmbeddingModel) (ts : List String) :
    (embed_many m ts).length = ts.length
  ∧ ∀ i, i < ts.length → (embed_many m ts).getD i [] = embed_one m (ts.getD i "") :=
  ⟨by simp [embed_many], fun i h => embed_many_getD m ts i h⟩

/-- Witness for C5 on the fast model and the two-text batch. -/
theorem embed_many_matches_embed_one_witness :
    1 < (["a", "b"] : List String).length ∧
    (embed_many .allMiniLML6v2 ["a", "b"]).getD 1 [] =
      embed_one .allMiniLML6v2 ((["a", "b"] : List String).getD 1 "") :=
  ⟨by decide, (embed_many_matches_embed_one .allMiniLML6v2 ["a", "b"]).2 1 (by decide)⟩

/-! Query engine lemmas and claims C6, C7. -/

/-- Every embedding has exactly the model's declared dimension. -/
theorem embed_one_length (m : EmbeddingModel) (t : String) :
    (embed_one m t).length = m.dimension := by
  simp [embed_one]

/-- Each batch slot is the independent single query of the corresponding input
text. -/
theorem batch_query_getD (r : Registry) (indexId : String) (k : Nat) :
    ∀ (texts : List String) (i : Nat), i < texts.length →
      (batch_query r texts indexId k).getD i (.error .BackendIOError) =
        query r (texts.getD i "") indexId k := by
  intro texts
  induction texts with
  | nil =>
    intro i h
    simp at h
  | cons t ts ih =>
    intro i h
    cases i with
    | zero => simp [batch_query]
    | succ i =>
      simp only [batch_query, List.map_cons, List.getD_cons_succ]
      exact ih i (by simpa using h)

/-- The demo query for "cats" against the demo registry succeeds with a single
rank-1 result scored by the stored dot product. -/
theorem demo_query_cats :
    query demoRegistry "cats" "FAISS_all-MiniLM-L6-v2" 1 =
      .ok [⟨1, demoChunk.text, demoChunk.sourceDoc,
        dot (embed_one .allMiniLML6v2 demoChunk.text) (embed_one .allMiniLML6v2 "cats")⟩] := by
  have hblank : isBlank "cats" = false := by rfl
  have hres : resolve demoRegistry "FAISS_all-MiniLM-L6-v2" =
      .ok (.allMiniLML6v2, demoIndex) := by rfl
  have hsearch : demoIndex.search (embed_one .allMiniLML6v2 "cats") 1 =
      .ok [(demoChunk,
        dot (embed_one .allMiniLML6v2 demoChunk.text) (embed_one .allMiniLML6v2 "cats"))] := by
    unfold VectorIndex.search
    rw [if_pos]
    · simp [searchOrdered, demoIndex, scoredEntriesFrom, List.insertionSort,
        List.orderedInsert]
    · rw [embed_one_length]
      rfl
  have hnk : ¬ (1 : Nat) < 1 := by omega
  simp only [query, queryWith, hblank, Bool.false_eq_true, if_false, hnk, hres, hsearch]
  simp [rankResults]

/-- Claim C6: batch_query returns exactly one result slot per input text in
input order, each slot computed independently as the single query of that
text; in the concrete scenario the blank first query reports EmptyQuery while
the second slot still carries a normal one-element ranked result. -/
theorem batch_query_slotwise :
    (∀ (r : Registry) (texts : List String) (indexId : String) (k : Nat),
      (batch_query r texts indexId k).length = texts.length
      ∧ ∀ i, i < texts.length →
          (batch_query r texts indexId k).getD i (.error .BackendIOError) =
            query r (texts.getD i "") indexId k)
  ∧ (batch_query demoRegistry ["", "cats"] "FAISS_all-MiniLM-L6-v2" 1).getD 0
      (.error .BackendIOError) = .error .EmptyQuery
  ∧ ∃ res, (batch_query demoRegistry ["", "cats"] "FAISS_all-MiniLM-L6-v2" 1).getD 1
      (.error .BackendIOError) = .ok res
      ∧ res.length = 1 ∧ (res.getD 0 ⟨0, "", "", 0⟩).rank = 1 := by
  refine ⟨?_, ?_, ?_⟩
  · intro r texts indexId k
    exact ⟨by simp [batch_query], fun i h => batch_query_getD r indexId k texts i h⟩
  · have h0 : (batch_query demoRegistry ["", "cats"] "FAISS_all-MiniLM-L6-v2" 1).getD 0
        (.error .BackendIOError) = query demoRegistry "" "FAISS_all-MiniLM-L6-v2" 1 :=
      batch_query_getD demoRegistry "FAISS_all-MiniLM-L6-v2" 1 ["", "cats"] 0 (by decide)
    rw [h0]
    have hblank : isBlank "" = true := by rfl
    simp [query, queryWith, hblank]
  · have h1 : (batch_query demoRegistry ["", "cats"] "FAISS_all-MiniLM-L6-v2" 1).getD 1
        (.error .BackendIOError) = query demoRegistry "cats" "FAISS_all-MiniLM-L6-v2" 1 :=
      batch_query_getD demoRegistry "FAISS_all-MiniLM-L6-v2" 1 ["", "cats"] 1 (by decide)
    rw [h1, demo_query_cats]
    exact ⟨_, rfl, rfl, rfl⟩

/-- Witness for C6: the first slot of the scenario batch equals the
independent single query of the blank text. -/
theorem batch_query_slotwise_witness :
    0 < (["", "cats"] : List String).length ∧
    (batch_query demoRegistry ["", "cats"] "FAISS_all-MiniLM-L6-v2" 1).getD 0
      (.error .BackendIOError) =
      query demoRegistry ((["", "cats"] : List String).getD 0 "") "FAISS_all-MiniLM-L6-v2" 1 :=
  ⟨by decide,
    (batch_query_slotwise.1 demoRegistry ["", "cats"] "FAISS_all-MiniLM-L6-v2" 1).2 0
      (by decide)⟩

/-- Claim C7: query fails with EmptyQuery whenever the text is blank and with
InvalidTopK whenever the text is non-blank and k < 1; on a validation failure
the result does not depend on the embedding function at all, so the failure is
detected before any embedding work; IndexNotFound from the registry and
DimensionMismatch from the index search are propagated unchanged. -/
theorem query_validation_and_propagation
    (embedA embedB : EmbeddingModel → String → Vec) (r : Registry)
    (t indexId : String) (k : Nat) :
    (isBlank t = true → queryWith embedA r t indexId k = .error .EmptyQuery)
  ∧ (isBlank t = false → k < 1 → queryWith embedA r t indexId k = .error .InvalidTopK)
  ∧ (isBlank t = true ∨ k < 1 →
      queryWith embedA r t indexId k = queryWith embedB r t indexId k)
  ∧ (isBlank t = false → 1 ≤ k → resolve r indexId = .error .IndexNotFound →
      queryWith embedA r t indexId k = .error .IndexNotFound)
  ∧ (∀ m idx, isBlank t = false → 1 ≤ k → resolve r indexId = .ok (m, idx) →
      idx.search (embedA m t) k = .error .DimensionMismatch →
      queryWith embedA r t indexId k = .error .DimensionMismatch) := by
  refine ⟨?_, ?_, ?_, ?_, ?_⟩
  · intro h
    simp [queryWith, h]
  · intro h hk
    simp [queryWith, h, hk]
  · rintro (h | h)
    · simp [queryWith, h]
    · cases hb : isBlank t <;> simp [queryWith, hb, h]
  · intro h hk hres
    have hnk : ¬ k < 1 := by omega
    simp only [queryWith, h, Bool.false_eq_true, if_false, hnk, hres]
  · intro m idx h hk hres hsearch
    have hnk : ¬ k < 1 := by omega
    simp only [queryWith, h, Bool.false_eq_true, if_false, hnk, hres, hsearch]

/-- Witness for C7: the blank query fails with EmptyQuery under the concrete
embedding provider. -/
theorem query_validation_and_propagation_witness :
    isBlank "" = true ∧
    queryWith embed_one demoRegistry "" "FAISS_all-MiniLM-L6-v2" 1 = .error .EmptyQuery :=
  ⟨by rfl,
    (query_validation_and_propagation embed_one embed_one demoRegistry ""
      "FAISS_all-MiniLM-L6-v2" 1).1 (by rfl)⟩

/-! Score range lemmas and claim C9. -/

/-- Dot product of two cons cells. -/
theorem dot_cons (a b : ℚ) (v w : Vec) :
    dot (a :: v) (b :: w) = a * b + dot v w := by
  simp [dot]

/-- A dot square is never negative. -/
theorem dot_self_nonneg (v : Vec) : 0 ≤ dot v v := by
  induction v with
  | nil => simp [dot]
  | cons a v ih => rw [dot_cons]; nlinarith [mul_self_nonneg a]

/-- Cauchy-Schwarz for list dot products. -/
theorem dot_sq_le (v : Vec) : ∀ w : Vec, dot v w * dot v w ≤ dot v v * dot w w := by
  induction v with
  | nil => intro w; simp [dot]
  | cons a v ih =>
    intro w
    cases w with
    | nil => simp [dot]
    | cons b w =>
      rw [dot_cons, dot_cons, dot_cons]
      have hd := ih w
      have hV := dot_self_nonneg v
      have hW := dot_self_nonneg w
      by_cases hW0 : dot w w = 0
      · have hd0 : dot v w = 0 := by nlinarith [hd, mul_self_nonneg (dot v w)]
        rw [hW0, hd0]
        nlinarith [mul_nonneg hV (mul_self_nonneg b)]
      · have hWpos : 0 < dot w w := lt_of_le_of_ne hW (Ne.symm hW0)
        have hsub : 0 ≤ dot v v * dot w w - dot v w * dot v w := by linarith
        nlinarith [sq_nonneg (a * dot w w - b * dot v w),
          mul_nonneg (mul_self_nonneg b) hsub,
          mul_nonneg hW hsub, hWpos]

/-- Claim C9, amended: when the stored vectors and the query are unit vectors
(L2 normalization at insertion and query time), every similarity score
returned by search is a plain dot product of unit vectors and therefore lies
in the bounded cosine-similarity range [-1, 1]; it is never an unnormalized
distance. -/
theorem search_scores_cosine_bounded (idx : VectorIndex) (q : Vec) (k : Nat)
    (hunit : ∀ v ∈ idx.vectors, dot v v = 1) (hq : dot q q = 1)
    (res : List (Chunk × ℚ)) (hres : idx.search q k = .ok res) :
    ∀ p ∈ res, -1 ≤ p.2 ∧ p.2 ≤ 1 := by
  intro p hp
  unfold VectorIndex.search at hres
  by_cases hdim : q.length = idx.dim
  · rw [if_pos hdim] at hres
    have hres' : res = ((searchOrdered idx q).take k).map (fun s => (s.chunk, s.score)) := by
      simpa using hres.symm
    rw [hres'] at hp
    obtain ⟨s, hs, hps⟩ := List.mem_map.mp hp
    have hs' : s ∈ searchOrdered idx q := (List.take_sublist _ _).subset hs
    have hs2 : s ∈ scoredEntriesFrom q 0 idx.chunks idx.vectors :=
      (List.perm_insertionSort rankBefore _).mem_iff.mp hs'
    obtain ⟨v, hv, hsc⟩ := scoredEntriesFrom_score q 0 idx.chunks idx.vectors s hs2
    have hcs := dot_sq_le v q
    rw [hunit v hv, hq] at hcs
    have hscore : p.2 = dot v q := by rw [← hps]; exact hsc
    rw [hscore]
    constructor
    · nlinarith [hcs, sq_nonneg (dot v q + 1)]
    · nlinarith [hcs, sq_nonneg (dot v q - 1)]
  · rw [if_neg hdim] at hres
    exact absurd hres (by simp)

/-- Witness for C9 on the two-dimensional unit index queried with the stored
unit vector itself. -/
theorem search_scores_cosine_bounded_witness :
    (∀ v ∈ unitIdx.vectors, dot v v = 1) ∧
    dot [(3 : ℚ) / 5, 4 / 5] [(3 : ℚ) / 5, 4 / 5] = 1 ∧
    ∀ p ∈ [(demoChunk, (1 : ℚ))], -1 ≤ p.2 ∧ p.2 ≤ 1 :=
  ⟨by
      intro v hv
      simp only [unitIdx, List.mem_singleton] at hv
      subst hv
      with_unfolding_all rfl,
    by with_unfolding_all rfl,
    search_scores_cosine_bounded unitIdx [(3 : ℚ) / 5, 4 / 5] 1
      (by
        intro v hv
        simp only [unitIdx, List.mem_singleton] at hv
        subst hv
        with_unfolding_all rfl)
      (by with_unfolding_all rfl)
      [(demoChunk, (1 : ℚ))] (by with_unfolding_all rfl)⟩

/-- Counterexample to C9 as stated: the stored vector and the query are both
unit-normalized, yet the returned cosine score is -1, outside a 0-to-1
scale. -/
theorem search_score_below_zero :
    unitIdx.search [(-3 : ℚ) / 5, (-4 : ℚ) / 5] 1 = .ok [(demoChunk, -1)] ∧
    dot [(-3 : ℚ) / 5, (-4 : ℚ) / 5] [(-3 : ℚ) / 5, (-4 : ℚ) / 5] = 1 ∧
    ¬ (0 : ℚ) ≤ -1 :=
  ⟨by with_unfolding_all rfl, by with_unfolding_all rfl, by norm_num⟩

/-! Frontend search history, claim C10. -/

/-- Claim C10: starting from a history of at most 10 entries, the history kept
by the search page still has at most 10 entries after any search outcome; a
successful search prepends the new entry (newest first) onto the first nine
previous entries, and a failed search changes nothing. -/
theorem search_history_at_most_ten (prev : List SearchHistoryItem) (qtext : String)
    (now : Nat) (resp : Except String SearchResponse) (hprev : prev.length ≤ 10) :
    (handleSearchHistory prev qtext now resp).length ≤ 10
  ∧ (∀ data, resp = .ok data →
      handleSearchHistory prev qtext now resp =
        ⟨qtext.trim, now, data.total_results⟩ :: prev.take 9)
  ∧ (∀ e, resp = .error e → handleSearchHistory prev qtext now resp = prev) := by
  refine ⟨?_, ?_, ?_⟩
  · cases resp with
    | ok data =>
      simp only [handleSearchHistory, List.length_cons, List.length_take]
      omega
    | error e => simpa [handleSearchHistory] using hprev
  · intro data h
    subst h
    rfl
  · intro e h
    subst h
    rfl

/-- Witness for C10: a failed search leaves an empty history empty. -/
theorem search_history_at_most_ten_witness :
    ([] : List SearchHistoryItem).length ≤ 10 ∧
    (handleSearchHistory [] "q" 0 (.error "HTTP 500")).length ≤ 10 :=
  ⟨by decide, (search_history_at_most_ten [] "q" 0 (.error "HTTP 500") (by decide)).1⟩

end SKP
